import Mathlib

/-!
Verification development for the `adk-agui-middleware` repository.

We give a shallow embedding of the SSE streaming service
(`src/adk_agui_middleware/service/sse_service.py`), the configuration
context (`data_model/context.py`), and the history handler
(`handler/history.py`).

The embedding is executable: asynchronous generators are modelled as
functions producing an explicit, ordered trace of actions (events
yielded, frames yielded, lock and unlock calls, extractor invocations)
together with an optional escaping exception (`Option Err`); awaiting a
fallible callable is modelled with `Except Err`.

Collaborator modules of this repository that are not part of the given
sources (the AGUI event-to-SSE converters, the error-event factory, the
session-lock handler internals, the running handler / event translator,
and the AGUI event-list-to-message-list converter) are modelled from the
spec; each such definition carries a doc comment starting with
`Modelled from the spec:`.
-/

/-- An exception value (we only track its message). -/
abbrev Err := String

/-- Modelled from the spec: the payload carried by a canonical AGUI event.
`prim` payloads are built from primitives only and are always encodable;
`blob` payloads are arbitrary and may fail to serialize
(`encodable := false`). The concrete converter code
(`utils/convert/agui_event_to_sse.py`) is not under the given sources. -/
inductive Payload
  | prim (s : String)
  | blob (encodable : Bool) (s : String)
deriving DecidableEq, Repr

/-- A wire frame: either a framed SSE record (dict form) or a plain text
block (the "fake SSE" string form). -/
inductive Frame
  | sse (eventName : String) (data : String)
  | plain (data : String)
deriving DecidableEq, Repr

/-- The client-facing AGUI `BaseEvent`: a type discriminator, a payload
(used to model encodability), and the optional `raw_event` attachment
holding the originating ADK event. -/
structure BaseEvent where
  eventType : String
  payload : Payload
  rawEvent : Option String
deriving DecidableEq, Repr

/-- Modelled from the spec: serialization of a payload; primitive-only
payloads always succeed, arbitrary payloads fail when unserializable. -/
def encodePayload : Payload → Except Err String
  | .prim s => .ok s
  | .blob true s => .ok s
  | .blob false s => .error s

/-- Modelled from the spec: `convert_agui_event_to_sse` — spec-compliant
framed encoding mode (event name and data block per message). -/
def convert_agui_event_to_sse (e : BaseEvent) : Except Err Frame :=
  (encodePayload e.payload).map (Frame.sse e.eventType)

/-- Modelled from the spec: `convert_agui_event_to_str_fake_sse` — the
plain sequential text-block fallback encoding mode. -/
def convert_agui_event_to_str_fake_sse (e : BaseEvent) : Except Err Frame :=
  (encodePayload e.payload).map Frame.plain

/-- Modelled from the spec: `AGUIErrorEvent.create_encoding_error_event`
builds a synthetic RunError-style event from primitives only (no
arbitrary client-supplied payload), hence always encodable. -/
def create_encoding_error_event (err : Err) : BaseEvent :=
  { eventType := "RUN_ERROR"
    payload := .prim ("Encoding error: " ++ err)
    rawEvent := none }

/-- Modelled from the spec: `AGUIErrorEvent.create_agent_error_event`
converts an agent-execution exception into a RunError canonical event. -/
def create_agent_error_event (err : Err) : BaseEvent :=
  { eventType := "RUN_ERROR"
    payload := .prim ("Agent execution error: " ++ err)
    rawEvent := none }

/-- The converter selected by `SSEService._encode_event_to_sse`:
`convert_agui_event_to_sse` when `event_source_response_mode` is set,
`convert_agui_event_to_str_fake_sse` otherwise. -/
def selected_converter (mode : Bool) : BaseEvent → Except Err Frame :=
  if mode then convert_agui_event_to_sse else convert_agui_event_to_str_fake_sse

/-- `SSEService._encode_event_to_sse`: try the selected converter; on an
exception, convert the synthetic encoding-error event instead.  The
fallback conversion is not itself guarded, so a (hypothetical) failure
there surfaces as `.error`. -/
def encode_event_to_sse (mode : Bool) (event : BaseEvent) : Except Err Frame :=
  match selected_converter mode event with
  | .ok f => .ok f
  | .error e => selected_converter mode (create_encoding_error_event e)

/-- `SSEService._record_output_message`: when an in/out handler is
configured it may transform the outgoing event; otherwise the event is
returned unchanged.  The handler is external collaborator code and is
modelled as a total transformation. -/
def record_output_message (inout : Option (BaseEvent → BaseEvent)) (e : BaseEvent) : BaseEvent :=
  match inout with
  | some f => f e
  | none => e

/-- One observable step of the request pipeline, in execution order. -/
inductive PipeAction
  | extractorCall (field : String)
  | lockCall
  | constructUserHandler
  | agentExecution
  | yieldEvent (e : BaseEvent)
  | yieldFrame (f : Frame)
  | unlockCall
deriving DecidableEq, Repr

/-- The opaque pair (agui_content, request) from which extractors read. -/
abbrev Input := String

/-- A configuration field of `ConfigContext`: either a static string or a
callable awaited with (agui_content, request); the callable may raise. -/
inductive ConfigValue
  | static (v : String)
  | extractor (f : Input → Except Err String)

/-- `data_model/context.py` `ConfigContext`, restricted to the fields the
claims are about: the four identity/state sources and the two flags used
by the SSE service. -/
structure ConfigContext where
  app_name : ConfigValue
  user_id : ConfigValue
  session_id : ConfigValue
  extract_initial_state : Option (Input → Except Err (List (String × String)))
  event_source_response_mode : Bool
  auto_remove_agui_raw_event : Bool

/-- `SSEService._get_config_value`: a static value is returned unchanged
with no call; a callable is awaited exactly once with the input.  The
trace records each callable invocation as an `extractorCall`. -/
def get_config_value (v : ConfigValue) (field : String) (input : Input) :
    List PipeAction × Except Err String :=
  match v with
  | .static s => ([], .ok s)
  | .extractor f => ([.extractorCall field], f input)

/-- `SSEService.extract_initial_state`: `None` stays `None` with no call;
a callable is awaited exactly once and its dictionary result is used. -/
def extract_initial_state_run
    (v : Option (Input → Except Err (List (String × String)))) (input : Input) :
    List PipeAction × Except Err (Option (List (String × String))) :=
  match v with
  | none => ([], .ok none)
  | some f => ([.extractorCall "initial_state"], (f input).map some)

/-- `data_model/common.py` `InputInfo`, restricted to the four resolved
context fields. -/
structure InputInfo where
  app_name : String
  user_id : String
  session_id : String
  initial_state : Option (List (String × String))
deriving DecidableEq, Repr

/-- The context-resolution prefix of `SSEService.get_runner`: the four
extractors are awaited in source order (app name, user id, session id,
initial state) while constructing `InputInfo`; the first exception
propagates and aborts the request. -/
def get_runner_input_info (cc : ConfigContext) (input : Input) :
    List PipeAction × Except Err InputInfo :=
  match get_config_value cc.app_name "app_name" input with
  | (a1, .error e) => (a1, .error e)
  | (a1, .ok app) =>
    match get_config_value cc.user_id "user_id" input with
    | (a2, .error e) => (a1 ++ a2, .error e)
    | (a2, .ok uid) =>
      match get_config_value cc.session_id "session_id" input with
      | (a3, .error e) => (a1 ++ a2 ++ a3, .error e)
      | (a3, .ok sid) =>
        match extract_initial_state_run cc.extract_initial_state input with
        | (a4, .error e) => (a1 ++ a2 ++ a3 ++ a4, .error e)
        | (a4, .ok st) =>
          (a1 ++ a2 ++ a3 ++ a4,
           .ok { app_name := app, user_id := uid, session_id := sid, initial_state := st })

/-- Environment of one execution of the inner `runner` generator of
`SSEService.get_runner`: whether `session_lock_handler.lock` succeeds,
the locked message served on contention, the event stream produced by
`AGUIUserHandler.run` together with an optional exception it raises
after those events, and the `auto_remove_agui_raw_event` flag. -/
structure RunnerEnv where
  lockOk : Bool
  lockedMessage : BaseEvent
  produced : List BaseEvent
  producedExc : Option Err
  autoRemoveRaw : Bool

/-- The per-event post-processing inside the runner loop: when
`auto_remove_agui_raw_event` is set, `event.raw_event = None` is applied
before yielding; otherwise the event is yielded as produced. -/
def auto_remove_raw (flag : Bool) (e : BaseEvent) : BaseEvent :=
  if flag then { e with rawEvent := none } else e

/-- Trace of a full run of the inner `runner` generator.  On lock failure
it yields the locked message and returns; on success it constructs the
`AGUIUserHandler` (with its fresh `Runner`) and yields each produced
event after raw-event post-processing, terminating with the producer's
exception, if any. -/
def runner_trace (env : RunnerEnv) : List PipeAction × Option Err :=
  if env.lockOk then
    (PipeAction.lockCall :: PipeAction.constructUserHandler :: PipeAction.agentExecution ::
       env.produced.map (fun e => PipeAction.yieldEvent (auto_remove_raw env.autoRemoveRaw e)),
     env.producedExc)
  else
    ([PipeAction.lockCall, PipeAction.yieldEvent env.lockedMessage], none)

/-- The `async for` loop in the `try` block of
`SSEService.event_generator._generate`: each event yielded by the runner
is recorded/transformed and encoded, and the frame is yielded to the
transport.  An exception raised while encoding aborts the loop there
(the remaining runner steps never happen) and escapes the loop. -/
def drive_loop (inout : Option (BaseEvent → BaseEvent)) (mode : Bool) :
    List PipeAction → List PipeAction × Option Err
  | [] => ([], none)
  | PipeAction.yieldEvent e :: rest =>
    match encode_event_to_sse mode (record_output_message inout e) with
    | .ok f =>
      let r := drive_loop inout mode rest
      (PipeAction.yieldEvent e :: PipeAction.yieldFrame f :: r.1, r.2)
    | .error err => ([PipeAction.yieldEvent e], some err)
  | a :: rest =>
    let r := drive_loop inout mode rest
    (a :: r.1, r.2)

/-- The `try` block of `_generate`: drive the runner; an exception from
the encoding path or from the runner itself escapes the block. -/
def generate_try_block (inout : Option (BaseEvent → BaseEvent)) (mode : Bool)
    (env : RunnerEnv) : List PipeAction × Option Err :=
  let r := runner_trace env
  let d := drive_loop inout mode r.1
  match d.2 with
  | some err => (d.1, some err)
  | none => (d.1, r.2)

/-- The `try`/`except` body of `_generate` (everything before `finally`):
an exception escaping the `try` block is converted to an agent-error
event, recorded and encoded, and that frame is yielded; only a
(hypothetical) failure of that fallback encoding escapes the body. -/
def generate_body (inout : Option (BaseEvent → BaseEvent)) (mode : Bool)
    (env : RunnerEnv) : List PipeAction × Option Err :=
  let b := generate_try_block inout mode env
  match b.2 with
  | none => (b.1, none)
  | some err =>
    match encode_event_to_sse mode (record_output_message inout (create_agent_error_event err)) with
    | .ok f => (b.1 ++ [PipeAction.yieldFrame f], none)
    | .error err2 => (b.1, some err2)

/-- How the `_generate` generator exits: it either runs to completion, or
is closed early (client disconnect or cancellation) while suspended
after `n` of its body steps. -/
inductive ExitMode
  | toEnd
  | closedAt (n : Nat)
deriving DecidableEq, Repr

/-- Trace of `SSEService.event_generator._generate`.  The `finally`
clause awaits `session_lock_handler.unlock(input_info)`, so an
`unlockCall` is appended on normal completion, on an escaping exception,
and when the started generator is closed early (Python runs `finally` on
`GeneratorExit`/cancellation at any suspension point). -/
def event_generator_trace (inout : Option (BaseEvent → BaseEvent)) (mode : Bool)
    (env : RunnerEnv) : ExitMode → List PipeAction × Option Err
  | .toEnd =>
    let b := generate_body inout mode env
    (b.1 ++ [PipeAction.unlockCall], b.2)
  | .closedAt n =>
    ((generate_body inout mode env).1.take n ++ [PipeAction.unlockCall], none)

/-- The whole request path: `get_runner` resolves the context (its
extractors may raise, aborting the request before any runner exists),
then `event_generator` streams the run.  `envOf` supplies the runtime
environment (lock outcome, produced events) for the resolved context. -/
def handle_request (cc : ConfigContext) (input : Input)
    (envOf : InputInfo → RunnerEnv) (inout : Option (BaseEvent → BaseEvent))
    (exit : ExitMode) : List PipeAction × Except Err (Option Err) :=
  match get_runner_input_info cc input with
  | (acts, .error e) => (acts, .error e)
  | (acts, .ok info) =>
    let g := event_generator_trace inout cc.event_source_response_mode (envOf info) exit
    (acts ++ g.1, .ok g.2)

/-- A content part of an ADK event; only its optional `text` matters here. -/
structure ContentPart where
  text : Option String
deriving DecidableEq, Repr

/-- The `content` of an ADK event: a role and a list of parts.  A Python
`None`/empty parts list is modelled as `[]` (both are falsy). -/
structure Content where
  role : String
  parts : List ContentPart
deriving DecidableEq, Repr

/-- The stored ADK event, restricted to the fields the history handler
reads: id, author, content, and the mid-stream flag (the adk `Event`
field named `part` + `ial`, written `isChunk` here). -/
structure AdkEvent where
  id : String
  author : String
  content : Option Content
  isChunk : Bool
deriving DecidableEq, Repr

/-- Python truthiness of `part.text`: a non-`None`, non-empty string. -/
def partTextTruthy (p : ContentPart) : Bool :=
  match p.text with
  | some s => s ≠ ""
  | none => false

/-- An AGUI chat message as used by the history snapshot (`UserMessage`,
`SystemMessage`, and the assistant messages folded from events). -/
structure AguiMessage where
  role : String
  id : String
  content : Option String
deriving DecidableEq, Repr

/-- The per-part message creators of
`HistoryHandler._check_raw_event_message_to_convert_agui`: key `"user"`
builds `UserMessage(role="user", id=event.id, content=part.text)`, key
`"developer"` builds `SystemMessage(role="system", ...)`. -/
def mkDirectMessage (key : String) (eventId : String) (p : ContentPart) : AguiMessage :=
  if key = "user" then { role := "user", id := eventId, content := p.text }
  else { role := "system", id := eventId, content := p.text }

/-- `HistoryHandler._check_raw_event_message_to_convert_agui`: events
with no content or no parts return `None`; an author key of `"user"` or
`"developer"` wins over the content role key; a missing key returns
`None`; otherwise every text-bearing part becomes one direct message. -/
def check_raw_event_message_to_convert_agui (e : AdkEvent) : Option (List AguiMessage) :=
  match e.content with
  | none => none
  | some c =>
    if c.parts.isEmpty then none
    else
      let authorKey := if e.author = "user" ∨ e.author = "developer" then e.author else ""
      let roleKey := if c.role = "user" ∨ c.role = "developer" then c.role else ""
      let key := if authorKey ≠ "" then authorKey else roleKey
      if key = "" then none
      else some ((c.parts.filter partTextTruthy).map (mkDirectMessage key e.id))

/-- A canonical AGUI event emitted by the event translator (text-message
lifecycle plus the custom fallback). -/
inductive AguiEvent
  | textStart (id role : String)
  | textContent (id delta : String)
  | textEnd (id : String)
  | custom (id : String)
deriving DecidableEq, Repr

/-- Modelled from the spec: the per-run mutable translator state — the id
of the currently-open text message, or none. -/
structure TranslatorState where
  openMessageId : Option String
deriving DecidableEq, Repr

/-- The fresh translator state a new `EventTranslator` starts from. -/
def initTranslatorState : TranslatorState := { openMessageId := none }

/-- The concatenated text of an ADK event, when it carries any. -/
def adkEventText (e : AdkEvent) : Option String :=
  match e.content with
  | none => none
  | some c =>
    let ts := c.parts.filterMap (fun p => p.text)
    if ts.isEmpty then none else some (String.join ts)

/-- Modelled from the spec: one step of the Event Translator state
machine (the event translator and running handler are not under the
given sources).  Text with the mid-stream flag opens a message on first
sight and streams content afterwards; final text closes the open message
(content first when non-empty) or forms a complete start/content/end
message at once; anything untranslatable degrades to a custom event. -/
def translateStep (st : TranslatorState) (e : AdkEvent) :
    TranslatorState × List AguiEvent :=
  match adkEventText e with
  | some t =>
    if e.isChunk then
      match st.openMessageId with
      | none =>
        ({ openMessageId := some e.id }, [.textStart e.id "assistant", .textContent e.id t])
      | some mid => (st, [.textContent mid t])
    else
      match st.openMessageId with
      | some mid =>
        ({ openMessageId := none },
         (if t = "" then [] else [AguiEvent.textContent mid t]) ++ [.textEnd mid])
      | none =>
        (st, [.textStart e.id "assistant"] ++
             (if t = "" then [] else [AguiEvent.textContent e.id t]) ++ [.textEnd e.id])
  | none => (st, [.custom e.id])

/-- An entry of the `agui_event_box` built by
`HistoryHandler.get_message_snapshot`: either a directly-converted
message or a translated canonical event. -/
inductive BoxItem
  | message (m : AguiMessage)
  | event (ev : AguiEvent)
deriving DecidableEq, Repr

/-- Buffer for a text message the converter is currently assembling. -/
structure OpenBuf where
  id : String
  role : String
  buf : String
deriving DecidableEq, Repr

/-- Modelled from the spec: `AGUIEventListToMessageListConverter.convert`
folds the mixed box into the ordered resolved-message list — direct
messages pass through, text start/content/end sequences assemble into
one message, custom events resolve to no message, and an unterminated
open message is closed defensively at the end. -/
def convertBoxList (open_ : Option OpenBuf) : List BoxItem → List AguiMessage
  | [] =>
    match open_ with
    | some b => [{ role := b.role, id := b.id, content := some b.buf }]
    | none => []
  | .message m :: rest => m :: convertBoxList open_ rest
  | .event (.textStart i r) :: rest => convertBoxList (some { id := i, role := r, buf := "" }) rest
  | .event (.textContent _ d) :: rest =>
    match open_ with
    | some b => convertBoxList (some { b with buf := b.buf ++ d }) rest
    | none => convertBoxList none rest
  | .event (.textEnd _) :: rest =>
    match open_ with
    | some b => { role := b.role, id := b.id, content := some b.buf } :: convertBoxList none rest
    | none => convertBoxList none rest
  | .event (.custom _) :: rest => convertBoxList open_ rest

/-- The per-event step of the `async for` loop in
`HistoryHandler.get_message_snapshot`: a truthy (non-`None`, non-empty)
result of the direct-conversion check bypasses the translator and
extends the box with those messages; every other event is translated
through the stateful pipeline and its events are appended. -/
def process_snapshot_event (st : TranslatorState) (e : AdkEvent) :
    TranslatorState × List BoxItem :=
  match check_raw_event_message_to_convert_agui e with
  | some (m :: ms) => (st, (m :: ms).map BoxItem.message)
  | _ =>
    let r := translateStep st e
    (r.1, r.2.map BoxItem.event)

/-- The accumulator loop of `HistoryHandler.get_message_snapshot`: the
box grows by `extend`/`append` while the translator state threads
through the translated events only. -/
def build_event_box (st : TranslatorState) (box : List BoxItem) :
    List AdkEvent → List BoxItem
  | [] => box
  | e :: rest =>
    let r := process_snapshot_event st e
    build_event_box r.1 (box ++ r.2) rest

/-- The same per-event processing written as a direct stream: each event
is processed one at a time with the translator state threaded through,
and its output is emitted immediately — the shape of live streaming. -/
def live_stream_box (st : TranslatorState) : List AdkEvent → List BoxItem
  | [] => []
  | e :: rest =>
    let r := process_snapshot_event st e
    r.2 ++ live_stream_box r.1 rest

/-- The messages-snapshot wrapper built by
`MessageEventUtil.create_message_snapshot`. -/
structure MessagesSnapshot where
  messages : List AguiMessage
deriving DecidableEq, Repr

/-- `HistoryHandler.get_message_snapshot`: `None` when the session does
not exist; otherwise the stored events are replayed through a fresh
translator, the box is folded into the resolved message list, and the
snapshot event wraps it. -/
def get_message_snapshot (session : Option (List AdkEvent)) : Option MessagesSnapshot :=
  match session with
  | none => none
  | some events =>
    some { messages := convertBoxList none (build_event_box initTranslatorState [] events) }

/-- The events yielded by a generator trace, in order. -/
def yielded_events (acts : List PipeAction) : List BaseEvent :=
  acts.filterMap (fun a =>
    match a with
    | .yieldEvent e => some e
    | _ => none)

/-- The parts of an ADK event that carry truthy text (the comprehension
filter `if part.text` in the direct conversion). -/
def event_text_parts (e : AdkEvent) : List ContentPart :=
  match e.content with
  | none => []
  | some c => c.parts.filter partTextTruthy

/-- The key the direct conversion selects: the author when it is
`"user"`/`"developer"` (author wins over the content role), else the
content role when it is `"user"`/`"developer"`, else `""` (no mapping). -/
def selected_message_key (e : AdkEvent) : String :=
  match e.content with
  | none => ""
  | some c =>
    let authorKey := if e.author = "user" ∨ e.author = "developer" then e.author else ""
    let roleKey := if c.role = "user" ∨ c.role = "developer" then c.role else ""
    if authorKey ≠ "" then authorKey else roleKey

/-- When `get_message_snapshot` converts an event directly instead of
feeding it through the translation pipeline: the event has content
parts, its author or content role is `"user"` or `"developer"`, and at
least one part carries truthy text. -/
def direct_convert_condition (e : AdkEvent) : Prop :=
  match e.content with
  | none => False
  | some c =>
    c.parts ≠ [] ∧
    (e.author = "user" ∨ e.author = "developer" ∨ c.role = "user" ∨ c.role = "developer") ∧
    c.parts.filter partTextTruthy ≠ []

/-- Sample event with an encodable payload. -/
def sampleEvent : BaseEvent :=
  { eventType := "TEXT_MESSAGE_CONTENT", payload := .blob true "hello", rawEvent := some "adk" }

/-- Sample event whose payload the converter rejects. -/
def sampleBadEvent : BaseEvent :=
  { eventType := "TOOL_CALL_ARGS", payload := .blob false "cycle", rawEvent := none }

/-- Sample locked-response message. -/
def sampleLockedMessage : BaseEvent :=
  { eventType := "CUSTOM", payload := .prim "session locked", rawEvent := none }

/-- Sample runner environment: lock acquired, one event, then a crash. -/
def sampleCrashEnv : RunnerEnv :=
  { lockOk := true
    lockedMessage := sampleLockedMessage
    produced := [sampleEvent]
    producedExc := some "agent blew up"
    autoRemoveRaw := false }

/-- Sample runner environment: lock contention. -/
def sampleLockedEnv : RunnerEnv :=
  { lockOk := false
    lockedMessage := sampleLockedMessage
    produced := [sampleEvent]
    producedExc := none
    autoRemoveRaw := false }

/-- Sample runner environment: lock acquired, two events, raw removal on. -/
def sampleRawRemoveEnv : RunnerEnv :=
  { lockOk := true
    lockedMessage := sampleLockedMessage
    produced := [sampleEvent, sampleBadEvent]
    producedExc := none
    autoRemoveRaw := true }

/-- Sample configuration whose user-id extractor raises. -/
def sampleFailingConfig : ConfigContext :=
  { app_name := .static "app"
    user_id := .extractor (fun _ => .error "identity backend down")
    session_id := .static "s1"
    extract_initial_state := none
    event_source_response_mode := true
    auto_remove_agui_raw_event := false }

/-- Sample configuration mixing static values and callables. -/
def sampleMixedConfig : ConfigContext :=
  { app_name := .static "app"
    user_id := .extractor (fun i => .ok ("user-" ++ i))
    session_id := .extractor (fun _ => .ok "s42")
    extract_initial_state := some (fun _ => .ok [("k", "v")])
    event_source_response_mode := false
    auto_remove_agui_raw_event := false }

/-- Sample stored user event with two text-bearing parts. -/
def sampleUserEvent : AdkEvent :=
  { id := "ev-1"
    author := "user"
    content := some { role := "user", parts := [{ text := some "first" }, { text := some "second" }] }
    isChunk := false }

lemma encode_event_to_sse_isOk (mode : Bool) (e : BaseEvent) :
    ∃ f, encode_event_to_sse mode e = .ok f := by
  cases e with
  | mk t p r =>
    cases p with
    | prim s =>
      cases mode <;>
        simp [encode_event_to_sse, selected_converter, convert_agui_event_to_sse,
          convert_agui_event_to_str_fake_sse, encodePayload, Except.map]
    | blob enc s =>
      cases enc <;> cases mode <;>
        simp [encode_event_to_sse, selected_converter, convert_agui_event_to_sse,
          convert_agui_event_to_str_fake_sse, encodePayload, Except.map,
          create_encoding_error_event]

lemma drive_loop_exc_none (inout : Option (BaseEvent → BaseEvent)) (mode : Bool) :
    ∀ acts : List PipeAction, (drive_loop inout mode acts).2 = none := by
  intro acts
  induction acts with
  | nil => simp [drive_loop]
  | cons a rest ih =>
    cases a with
    | yieldEvent e =>
      obtain ⟨f, hf⟩ := encode_event_to_sse_isOk mode (record_output_message inout e)
      simp [drive_loop, hf, ih]
    | extractorCall n => simpa [drive_loop] using ih
    | lockCall => simpa [drive_loop] using ih
    | constructUserHandler => simpa [drive_loop] using ih
    | agentExecution => simpa [drive_loop] using ih
    | yieldFrame f => simpa [drive_loop] using ih
    | unlockCall => simpa [drive_loop] using ih

lemma drive_loop_unlock_not_mem (inout : Option (BaseEvent → BaseEvent)) (mode : Bool) :
    ∀ acts : List PipeAction, PipeAction.unlockCall ∉ acts →
      PipeAction.unlockCall ∉ (drive_loop inout mode acts).1 := by
  intro acts
  induction acts with
  | nil => simp [drive_loop]
  | cons a rest ih =>
    intro hmem
    have ha : a ≠ PipeAction.unlockCall := fun h => hmem (h ▸ List.mem_cons_self a rest)
    have hrest : PipeAction.unlockCall ∉ rest := fun h => hmem (List.mem_cons_of_mem a h)
    cases a with
    | yieldEvent e =>
      obtain ⟨f, hf⟩ := encode_event_to_sse_isOk mode (record_output_message inout e)
      simp [drive_loop, hf, ih hrest]
    | extractorCall n => simp [drive_loop, ih hrest]
    | lockCall => simp [drive_loop, ih hrest]
    | constructUserHandler => simp [drive_loop, ih hrest]
    | agentExecution => simp [drive_loop, ih hrest]
    | yieldFrame f => simp [drive_loop, ih hrest]
    | unlockCall => exact absurd rfl ha

lemma runner_trace_unlock_not_mem (env : RunnerEnv) :
    PipeAction.unlockCall ∉ (runner_trace env).1 := by
  by_cases h : env.lockOk <;> simp [runner_trace, h]

lemma generate_try_block_fst (inout : Option (BaseEvent → BaseEvent)) (mode : Bool)
    (env : RunnerEnv) :
    (generate_try_block inout mode env).1 = (drive_loop inout mode (runner_trace env).1).1 := by
  unfold generate_try_block
  cases h : (drive_loop inout mode (runner_trace env).1).2 <;> simp [h]

lemma generate_body_unlock_not_mem (inout : Option (BaseEvent → BaseEvent)) (mode : Bool)
    (env : RunnerEnv) :
    PipeAction.unlockCall ∉ (generate_body inout mode env).1 := by
  have htry : PipeAction.unlockCall ∉ (generate_try_block inout mode env).1 := by
    rw [generate_try_block_fst]
    exact drive_loop_unlock_not_mem inout mode _ (runner_trace_unlock_not_mem env)
  unfold generate_body
  cases hb : (generate_try_block inout mode env).2 with
  | none => simpa [hb] using htry
  | some err =>
    cases he : encode_event_to_sse mode
        (record_output_message inout (create_agent_error_event err)) with
    | ok f => simp [hb, he, List.mem_append]; exact fun h => htry h
    | error e2 => simpa [hb, he] using htry

lemma unlock_concat_once (l : List PipeAction) (h : PipeAction.unlockCall ∉ l) :
    (l ++ [PipeAction.unlockCall]).count PipeAction.unlockCall = 1 ∧
    (l ++ [PipeAction.unlockCall]).getLast? = some PipeAction.unlockCall := by
  constructor
  · rw [List.count_append]
    rw [List.count_eq_zero.mpr h]
    simp
  · rw [List.getLast?_append]
    simp

/-- C1: every exit of the stream started by `SSEService.event_generator`
— normal exhaustion of the runner, an exception escaping the runner, or
early closure of the generator (client disconnect / cancellation) —
performs the session-lock release (`session_lock_handler.unlock` on the
run's `InputInfo`) exactly once, as its final step. -/
theorem sse_unlock_on_every_exit (inout : Option (BaseEvent → BaseEvent)) (mode : Bool)
    (env : RunnerEnv) (exit : ExitMode) :
    (event_generator_trace inout mode env exit).1.count PipeAction.unlockCall = 1 ∧
    (event_generator_trace inout mode env exit).1.getLast? = some PipeAction.unlockCall := by
  cases exit with
  | toEnd =>
    exact unlock_concat_once _ (generate_body_unlock_not_mem inout mode env)
  | closedAt n =>
    refine unlock_concat_once _ (fun hmem => ?_)
    exact generate_body_unlock_not_mem inout mode env (List.take_subset n _ hmem)

lemma runner_trace_exc_of_lockOk (env : RunnerEnv) (h : env.lockOk = true) :
    (runner_trace env).2 = env.producedExc := by
  simp [runner_trace, h]

/-- C2: an exception raised inside the runner generator never propagates
to the transport: the stream yields, after the normally-delivered
frames, exactly one frame encoding the agent-error event built by
`AGUIErrorEvent.create_agent_error_event` from the exception, then
releases the lock and terminates normally (no escaping exception). -/
theorem sse_agent_exception_to_error_event (inout : Option (BaseEvent → BaseEvent))
    (mode : Bool) (env : RunnerEnv) (err : Err)
    (hlock : env.lockOk = true) (hexc : env.producedExc = some err) :
    ∃ f, encode_event_to_sse mode (record_output_message inout (create_agent_error_event err)) =
        Except.ok f ∧
      event_generator_trace inout mode env ExitMode.toEnd =
        ((drive_loop inout mode (runner_trace env).1).1 ++
           [PipeAction.yieldFrame f, PipeAction.unlockCall], none) := by
  obtain ⟨f, hf⟩ :=
    encode_event_to_sse_isOk mode (record_output_message inout (create_agent_error_event err))
  refine ⟨f, hf, ?_⟩
  have h2 : (runner_trace env).2 = some err := by rw [runner_trace_exc_of_lockOk env hlock, hexc]
  have hd := drive_loop_exc_none inout mode (runner_trace env).1
  have htry : generate_try_block inout mode env =
      ((drive_loop inout mode (runner_trace env).1).1, some err) := by
    simp only [generate_try_block]
    rw [hd]
    simp [h2]
  have hbody : generate_body inout mode env =
      ((drive_loop inout mode (runner_trace env).1).1 ++ [PipeAction.yieldFrame f], none) := by
    simp only [generate_body]
    rw [htry]
    simp [hf]
  simp [event_generator_trace, hbody]

/-- Witness for C2 at a concrete crashing environment. -/
theorem sse_agent_exception_to_error_event_witness :
    ∃ f, encode_event_to_sse true
        (record_output_message none (create_agent_error_event "agent blew up")) = Except.ok f ∧
      event_generator_trace none true sampleCrashEnv ExitMode.toEnd =
        ((drive_loop none true (runner_trace sampleCrashEnv).1).1 ++
           [PipeAction.yieldFrame f, PipeAction.unlockCall], none) :=
  sse_agent_exception_to_error_event none true sampleCrashEnv "agent blew up" rfl rfl

/-- C3: when `session_lock_handler.lock` returns false, the runner
generator yields exactly one event — the handler's locked message — and
terminates: no `AGUIUserHandler`/`Runner` construction and no agent or
queue activity occur, and the scoped unlock in `finally` still fires. -/
theorem sse_lock_contention_short_circuit (inout : Option (BaseEvent → BaseEvent))
    (mode : Bool) (env : RunnerEnv) (hlock : env.lockOk = false) :
    ∃ f, encode_event_to_sse mode (record_output_message inout env.lockedMessage) =
        Except.ok f ∧
      runner_trace env = ([PipeAction.lockCall, PipeAction.yieldEvent env.lockedMessage], none) ∧
      PipeAction.constructUserHandler ∉ (runner_trace env).1 ∧
      PipeAction.agentExecution ∉ (runner_trace env).1 ∧
      event_generator_trace inout mode env ExitMode.toEnd =
        ([PipeAction.lockCall, PipeAction.yieldEvent env.lockedMessage,
          PipeAction.yieldFrame f, PipeAction.unlockCall], none) := by
  obtain ⟨f, hf⟩ := encode_event_to_sse_isOk mode (record_output_message inout env.lockedMessage)
  have hr : runner_trace env =
      ([PipeAction.lockCall, PipeAction.yieldEvent env.lockedMessage], none) := by
    simp [runner_trace, hlock]
  have hd : drive_loop inout mode [PipeAction.lockCall, PipeAction.yieldEvent env.lockedMessage] =
      ([PipeAction.lockCall, PipeAction.yieldEvent env.lockedMessage,
        PipeAction.yieldFrame f], none) := by
    simp [drive_loop, hf]
  have htry : generate_try_block inout mode env =
      ([PipeAction.lockCall, PipeAction.yieldEvent env.lockedMessage,
        PipeAction.yieldFrame f], none) := by
    unfold generate_try_block
    rw [hr]
    simp [hd]
  have hbody : generate_body inout mode env =
      ([PipeAction.lockCall, PipeAction.yieldEvent env.lockedMessage,
        PipeAction.yieldFrame f], none) := by
    unfold generate_body
    rw [htry]
  refine ⟨f, hf, hr, ?_, ?_, ?_⟩
  · rw [hr]; simp
  · rw [hr]; simp
  · simp [event_generator_trace, hbody]

/-- Witness for C3 at a concrete contended environment. -/
theorem sse_lock_contention_short_circuit_witness :
    ∃ f, encode_event_to_sse false (record_output_message none sampleLockedMessage) =
        Except.ok f ∧
      runner_trace sampleLockedEnv =
        ([PipeAction.lockCall, PipeAction.yieldEvent sampleLockedMessage], none) ∧
      PipeAction.constructUserHandler ∉ (runner_trace sampleLockedEnv).1 ∧
      PipeAction.agentExecution ∉ (runner_trace sampleLockedEnv).1 ∧
      event_generator_trace none false sampleLockedEnv ExitMode.toEnd =
        ([PipeAction.lockCall, PipeAction.yieldEvent sampleLockedMessage,
          PipeAction.yieldFrame f, PipeAction.unlockCall], none) :=
  sse_lock_contention_short_circuit none false sampleLockedEnv rfl

/-- C4: `_encode_event_to_sse` never raises — it always returns a frame;
and whenever the selected converter fails on the event, the returned
frame is the conversion of the synthetic encoding-error event built by
`AGUIErrorEvent.create_encoding_error_event`, which the same converter
always accepts. -/
theorem sse_encoding_error_recovery (mode : Bool) (e : BaseEvent) :
    (∃ f, encode_event_to_sse mode e = Except.ok f) ∧
    (∀ err, selected_converter mode e = Except.error err →
      encode_event_to_sse mode e =
        selected_converter mode (create_encoding_error_event err) ∧
      ∃ f, selected_converter mode (create_encoding_error_event err) = Except.ok f) := by
  refine ⟨encode_event_to_sse_isOk mode e, fun err herr => ?_⟩
  have h1 : encode_event_to_sse mode e =
      selected_converter mode (create_encoding_error_event err) := by
    unfold encode_event_to_sse
    rw [herr]
  refine ⟨h1, ?_⟩
  have h2 := encode_event_to_sse_isOk mode e
  rw [h1] at h2
  exact h2

/-- Witness for C4 at a concrete unencodable event. -/
theorem sse_encoding_error_recovery_witness :
    (∃ f, encode_event_to_sse true sampleBadEvent = Except.ok f) ∧
    encode_event_to_sse true sampleBadEvent =
      selected_converter true (create_encoding_error_event "cycle") :=
  ⟨(sse_encoding_error_recovery true sampleBadEvent).1,
   ((sse_encoding_error_recovery true sampleBadEvent).2 "cycle" rfl).1⟩

lemma yielded_events_map (g : BaseEvent → BaseEvent) (l : List BaseEvent) :
    yielded_events (l.map (fun e => PipeAction.yieldEvent (g e))) = l.map g := by
  induction l with
  | nil => rfl
  | cons e rest ih =>
    simp only [List.map_cons]
    simp only [yielded_events, List.filterMap_cons] at ih ⊢
    simpa using ih

lemma yielded_events_runner (env : RunnerEnv) (h : env.lockOk = true) :
    yielded_events (runner_trace env).1 =
      env.produced.map (auto_remove_raw env.autoRemoveRaw) := by
  have h1 : (runner_trace env).1 =
      PipeAction.lockCall :: PipeAction.constructUserHandler :: PipeAction.agentExecution ::
        env.produced.map (fun e => PipeAction.yieldEvent (auto_remove_raw env.autoRemoveRaw e)) := by
    simp [runner_trace, h]
  rw [h1]
  have h2 := yielded_events_map (auto_remove_raw env.autoRemoveRaw) env.produced
  simp only [yielded_events, List.filterMap_cons] at h2 ⊢
  simpa using h2

/-- C10: inside the runner loop, when `auto_remove_agui_raw_event` is
true every yielded event is the produced event with `raw_event` set to
`None` and all other fields unchanged; when the flag is false the events
are yielded exactly as produced. -/
theorem sse_auto_remove_raw_event (env : RunnerEnv) (hlock : env.lockOk = true) :
    (env.autoRemoveRaw = true →
      yielded_events (runner_trace env).1 =
        env.produced.map (fun e => { e with rawEvent := none })) ∧
    (env.autoRemoveRaw = false →
      yielded_events (runner_trace env).1 = env.produced) := by
  constructor
  · intro hflag
    rw [yielded_events_runner env hlock]
    simp [auto_remove_raw, hflag]
  · intro hflag
    rw [yielded_events_runner env hlock, hflag]
    have h0 : auto_remove_raw false = id := by
      funext e
      simp [auto_remove_raw]
    rw [h0, List.map_id]

/-- Witness for C10 at a concrete environment with the flag on. -/
theorem sse_auto_remove_raw_event_witness :
    yielded_events (runner_trace sampleRawRemoveEnv).1 =
      sampleRawRemoveEnv.produced.map (fun e => { e with rawEvent := none }) :=
  (sse_auto_remove_raw_event sampleRawRemoveEnv rfl).1 rfl

lemma get_config_value_static_eq (s field : String) (input : Input) :
    get_config_value (ConfigValue.static s) field input = ([], .ok s) := rfl

lemma get_config_value_extractor_eq (f : Input → Except Err String) (field : String)
    (input : Input) :
    get_config_value (ConfigValue.extractor f) field input =
      ([PipeAction.extractorCall field], f input) := rfl

lemma get_config_value_count_ne (v : ConfigValue) (field : String) (input : Input)
    (m : String) (hne : m ≠ field) :
    (get_config_value v field input).1.count (PipeAction.extractorCall m) = 0 := by
  cases v with
  | static s => simp [get_config_value]
  | extractor f =>
    simp [get_config_value, List.count_cons]
    exact fun h => absurd h.symm hne

lemma extract_initial_state_run_count_ne
    (v : Option (Input → Except Err (List (String × String)))) (input : Input)
    (m : String) (hne : m ≠ "initial_state") :
    (extract_initial_state_run v input).1.count (PipeAction.extractorCall m) = 0 := by
  cases v with
  | none => simp [extract_initial_state_run]
  | some f =>
    simp [extract_initial_state_run, List.count_cons]
    exact fun h => absurd h.symm hne

lemma get_runner_input_info_ok_decomp (cc : ConfigContext) (input : Input)
    (acts : List PipeAction) (info : InputInfo)
    (h : get_runner_input_info cc input = (acts, .ok info)) :
    ∃ a1 a2 a3 a4,
      acts = a1 ++ a2 ++ a3 ++ a4 ∧
      get_config_value cc.app_name "app_name" input = (a1, .ok info.app_name) ∧
      get_config_value cc.user_id "user_id" input = (a2, .ok info.user_id) ∧
      get_config_value cc.session_id "session_id" input = (a3, .ok info.session_id) ∧
      extract_initial_state_run cc.extract_initial_state input = (a4, .ok info.initial_state) := by
  unfold get_runner_input_info at h
  rcases h1 : get_config_value cc.app_name "app_name" input with ⟨a1, r1⟩
  rw [h1] at h
  cases r1 with
  | error e => simp at h
  | ok app =>
    rcases h2 : get_config_value cc.user_id "user_id" input with ⟨a2, r2⟩
    rw [h2] at h
    cases r2 with
    | error e => simp at h
    | ok uid =>
      rcases h3 : get_config_value cc.session_id "session_id" input with ⟨a3, r3⟩
      rw [h3] at h
      cases r3 with
      | error e => simp at h
      | ok sid =>
        rcases h4 : extract_initial_state_run cc.extract_initial_state input with ⟨a4, r4⟩
        rw [h4] at h
        cases r4 with
        | error e => simp at h
        | ok st =>
          simp only [Prod.mk.injEq, Except.ok.injEq] at h
          obtain ⟨hacts, hinfo⟩ := h
          refine ⟨a1, a2, a3, a4, hacts.symm, ?_, ?_, ?_, ?_⟩
          · rw [← hinfo]
          · rw [← hinfo]
          · rw [← hinfo]
          · rw [← hinfo]

/-- C7: for each of the four context fields, `SSEService.get_runner`
resolves the configured value exactly once per request: a callable is
awaited exactly once with (agui_content, request) and its result is used
in `InputInfo`; a static value is returned unchanged with no call. -/
theorem sse_config_resolved_once (cc : ConfigContext) (input : Input)
    (acts : List PipeAction) (info : InputInfo)
    (h : get_runner_input_info cc input = (acts, .ok info)) :
    ((∀ v, cc.app_name = ConfigValue.static v →
        info.app_name = v ∧ acts.count (PipeAction.extractorCall "app_name") = 0) ∧
     (∀ f, cc.app_name = ConfigValue.extractor f →
        f input = .ok info.app_name ∧ acts.count (PipeAction.extractorCall "app_name") = 1)) ∧
    ((∀ v, cc.user_id = ConfigValue.static v →
        info.user_id = v ∧ acts.count (PipeAction.extractorCall "user_id") = 0) ∧
     (∀ f, cc.user_id = ConfigValue.extractor f →
        f input = .ok info.user_id ∧ acts.count (PipeAction.extractorCall "user_id") = 1)) ∧
    ((∀ v, cc.session_id = ConfigValue.static v →
        info.session_id = v ∧ acts.count (PipeAction.extractorCall "session_id") = 0) ∧
     (∀ f, cc.session_id = ConfigValue.extractor f →
        f input = .ok info.session_id ∧
          acts.count (PipeAction.extractorCall "session_id") = 1)) ∧
    ((cc.extract_initial_state = none →
        info.initial_state = none ∧ acts.count (PipeAction.extractorCall "initial_state") = 0) ∧
     (∀ f, cc.extract_initial_state = some f →
        (∃ st, f input = .ok st ∧ info.initial_state = some st) ∧
          acts.count (PipeAction.extractorCall "initial_state") = 1)) := by
  obtain ⟨a1, a2, a3, a4, hacts, h1, h2, h3, h4⟩ :=
    get_runner_input_info_ok_decomp cc input acts info h
  have c2 : a2.count (PipeAction.extractorCall "app_name") = 0 := by
    have := get_config_value_count_ne cc.user_id "user_id" input "app_name" (by decide)
    rwa [h2] at this
  have c3 : a3.count (PipeAction.extractorCall "app_name") = 0 := by
    have := get_config_value_count_ne cc.session_id "session_id" input "app_name" (by decide)
    rwa [h3] at this
  have c4 : a4.count (PipeAction.extractorCall "app_name") = 0 := by
    have := extract_initial_state_run_count_ne cc.extract_initial_state input "app_name" (by decide)
    rwa [h4] at this
  have d1 : a1.count (PipeAction.extractorCall "user_id") = 0 := by
    have := get_config_value_count_ne cc.app_name "app_name" input "user_id" (by decide)
    rwa [h1] at this
  have d3 : a3.count (PipeAction.extractorCall "user_id") = 0 := by
    have := get_config_value_count_ne cc.session_id "session_id" input "user_id" (by decide)
    rwa [h3] at this
  have d4 : a4.count (PipeAction.extractorCall "user_id") = 0 := by
    have := extract_initial_state_run_count_ne cc.extract_initial_state input "user_id" (by decide)
    rwa [h4] at this
  have e1 : a1.count (PipeAction.extractorCall "session_id") = 0 := by
    have := get_config_value_count_ne cc.app_name "app_name" input "session_id" (by decide)
    rwa [h1] at this
  have e2 : a2.count (PipeAction.extractorCall "session_id") = 0 := by
    have := get_config_value_count_ne cc.user_id "user_id" input "session_id" (by decide)
    rwa [h2] at this
  have e4 : a4.count (PipeAction.extractorCall "session_id") = 0 := by
    have := extract_initial_state_run_count_ne cc.extract_initial_state input "session_id"
      (by decide)
    rwa [h4] at this
  have g1 : a1.count (PipeAction.extractorCall "initial_state") = 0 := by
    have := get_config_value_count_ne cc.app_name "app_name" input "initial_state" (by decide)
    rwa [h1] at this
  have g2 : a2.count (PipeAction.extractorCall "initial_state") = 0 := by
    have := get_config_value_count_ne cc.user_id "user_id" input "initial_state" (by decide)
    rwa [h2] at this
  have g3 : a3.count (PipeAction.extractorCall "initial_state") = 0 := by
    have := get_config_value_count_ne cc.session_id "session_id" input "initial_state" (by decide)
    rwa [h3] at this
  subst hacts
  refine ⟨⟨?_, ?_⟩, ⟨?_, ?_⟩, ⟨?_, ?_⟩, ⟨?_, ?_⟩⟩
  · intro v hv
    rw [hv, get_config_value_static_eq] at h1
    simp only [Prod.mk.injEq, Except.ok.injEq] at h1
    obtain ⟨ha1, hval⟩ := h1
    refine ⟨hval.symm, ?_⟩
    simp [List.count_append, ← ha1, c2, c3, c4]
  · intro f hf
    rw [hf, get_config_value_extractor_eq] at h1
    simp only [Prod.mk.injEq] at h1
    obtain ⟨ha1, hval⟩ := h1
    refine ⟨hval, ?_⟩
    simp [List.count_append, ← ha1, c2, c3, c4, List.count_cons]
  · intro v hv
    rw [hv, get_config_value_static_eq] at h2
    simp only [Prod.mk.injEq, Except.ok.injEq] at h2
    obtain ⟨ha2, hval⟩ := h2
    refine ⟨hval.symm, ?_⟩
    simp [List.count_append, ← ha2, d1, d3, d4]
  · intro f hf
    rw [hf, get_config_value_extractor_eq] at h2
    simp only [Prod.mk.injEq] at h2
    obtain ⟨ha2, hval⟩ := h2
    refine ⟨hval, ?_⟩
    simp [List.count_append, ← ha2, d1, d3, d4, List.count_cons]
  · intro v hv
    rw [hv, get_config_value_static_eq] at h3
    simp only [Prod.mk.injEq, Except.ok.injEq] at h3
    obtain ⟨ha3, hval⟩ := h3
    refine ⟨hval.symm, ?_⟩
    simp [List.count_append, ← ha3, e1, e2, e4]
  · intro f hf
    rw [hf, get_config_value_extractor_eq] at h3
    simp only [Prod.mk.injEq] at h3
    obtain ⟨ha3, hval⟩ := h3
    refine ⟨hval, ?_⟩
    simp [List.count_append, ← ha3, e1, e2, e4, List.count_cons]
  · intro hv
    rw [hv] at h4
    simp only [extract_initial_state_run, Prod.mk.injEq, Except.ok.injEq] at h4
    obtain ⟨ha4, hval⟩ := h4
    refine ⟨hval.symm, ?_⟩
    simp [List.count_append, ← ha4, g1, g2, g3]
  · intro f hf
    rw [hf] at h4
    simp only [extract_initial_state_run, Prod.mk.injEq] at h4
    obtain ⟨ha4, hval⟩ := h4
    constructor
    · cases hres : f input with
      | error e => rw [hres] at hval; simp [Except.map] at hval
      | ok st =>
        rw [hres] at hval
        simp only [Except.map, Except.ok.injEq] at hval
        exact ⟨st, rfl, hval.symm⟩
    · simp [List.count_append, ← ha4, g1, g2, g3, List.count_cons]

/-- Witness for C7 at a concrete mixed configuration. -/
theorem sse_config_resolved_once_witness :
    ("user-req" = (InputInfo.mk "app" "user-req" "s42" (some [("k", "v")])).user_id ∧
     ([PipeAction.extractorCall "user_id", PipeAction.extractorCall "session_id",
       PipeAction.extractorCall "initial_state"] : List PipeAction).count
        (PipeAction.extractorCall "user_id") = 1) ∧
    "app" = (InputInfo.mk "app" "user-req" "s42" (some [("k", "v")])).app_name := by
  have h := sse_config_resolved_once sampleMixedConfig "req"
    [PipeAction.extractorCall "user_id", PipeAction.extractorCall "session_id",
     PipeAction.extractorCall "initial_state"]
    (InputInfo.mk "app" "user-req" "s42" (some [("k", "v")])) rfl
  refine ⟨?_, ?_⟩
  · have h2 := h.2.1.2 (fun i => .ok ("user-" ++ i)) rfl
    exact ⟨rfl, h2.2⟩
  · exact ((h.1.1 "app" rfl).1).symm

lemma get_config_value_acts_shape (v : ConfigValue) (field : String) (input : Input) :
    ∀ a ∈ (get_config_value v field input).1, ∃ n, a = PipeAction.extractorCall n := by
  cases v with
  | static s => simp [get_config_value]
  | extractor f =>
    intro a ha
    simp [get_config_value] at ha
    exact ⟨field, ha⟩

lemma extract_initial_state_run_acts_shape
    (v : Option (Input → Except Err (List (String × String)))) (input : Input) :
    ∀ a ∈ (extract_initial_state_run v input).1, ∃ n, a = PipeAction.extractorCall n := by
  cases v with
  | none => simp [extract_initial_state_run]
  | some f =>
    intro a ha
    simp [extract_initial_state_run] at ha
    exact ⟨"initial_state", ha⟩

lemma get_runner_input_info_acts_shape (cc : ConfigContext) (input : Input) :
    ∀ a ∈ (get_runner_input_info cc input).1, ∃ n, a = PipeAction.extractorCall n := by
  unfold get_runner_input_info
  have s1 := get_config_value_acts_shape cc.app_name "app_name" input
  have s2 := get_config_value_acts_shape cc.user_id "user_id" input
  have s3 := get_config_value_acts_shape cc.session_id "session_id" input
  have s4 := extract_initial_state_run_acts_shape cc.extract_initial_state input
  rcases h1 : get_config_value cc.app_name "app_name" input with ⟨a1, r1⟩
  rw [h1] at s1
  cases r1 with
  | error e => exact s1
  | ok app =>
    rcases h2 : get_config_value cc.user_id "user_id" input with ⟨a2, r2⟩
    rw [h2] at s2
    cases r2 with
    | error e =>
      intro a ha
      rcases List.mem_append.mp ha with h | h
      · exact s1 a h
      · exact s2 a h
    | ok uid =>
      rcases h3 : get_config_value cc.session_id "session_id" input with ⟨a3, r3⟩
      rw [h3] at s3
      cases r3 with
      | error e =>
        intro a ha
        rcases List.mem_append.mp ha with h | h
        · rcases List.mem_append.mp h with h' | h'
          · exact s1 a h'
          · exact s2 a h'
        · exact s3 a h
      | ok sid =>
        rcases h4 : extract_initial_state_run cc.extract_initial_state input with ⟨a4, r4⟩
        rw [h4] at s4
        have hmem : ∀ a ∈ a1 ++ a2 ++ a3 ++ a4, ∃ n, a = PipeAction.extractorCall n := by
          intro a ha
          rcases List.mem_append.mp ha with h | h
          · rcases List.mem_append.mp h with h' | h'
            · rcases List.mem_append.mp h' with h'' | h''
              · exact s1 a h''
              · exact s2 a h''
            · exact s3 a h'
          · exact s4 a h
        cases r4 with
        | error e => exact hmem
        | ok st => exact hmem

lemma get_runner_input_info_fails (cc : ConfigContext) (input : Input) (e : Err)
    (h : (∃ f, cc.app_name = ConfigValue.extractor f ∧ f input = .error e) ∨
         (∃ f, cc.user_id = ConfigValue.extractor f ∧ f input = .error e) ∨
         (∃ f, cc.session_id = ConfigValue.extractor f ∧ f input = .error e) ∨
         (∃ f, cc.extract_initial_state = some f ∧ f input = .error e)) :
    ∃ e2, (get_runner_input_info cc input).2 = .error e2 := by
  unfold get_runner_input_info
  rcases h1 : get_config_value cc.app_name "app_name" input with ⟨a1, r1⟩
  cases r1 with
  | error e1 => exact ⟨e1, rfl⟩
  | ok app =>
    rcases h2 : get_config_value cc.user_id "user_id" input with ⟨a2, r2⟩
    cases r2 with
    | error e1 => exact ⟨e1, rfl⟩
    | ok uid =>
      rcases h3 : get_config_value cc.session_id "session_id" input with ⟨a3, r3⟩
      cases r3 with
      | error e1 => exact ⟨e1, rfl⟩
      | ok sid =>
        rcases h4 : extract_initial_state_run cc.extract_initial_state input with ⟨a4, r4⟩
        cases r4 with
        | error e1 => exact ⟨e1, rfl⟩
        | ok st =>
          exfalso
          rcases h with ⟨f, hf, hres⟩ | ⟨f, hf, hres⟩ | ⟨f, hf, hres⟩ | ⟨f, hf, hres⟩
          · rw [hf, get_config_value_extractor_eq, hres] at h1
            simp at h1
          · rw [hf, get_config_value_extractor_eq, hres] at h2
            simp at h2
          · rw [hf, get_config_value_extractor_eq, hres] at h3
            simp at h3
          · rw [hf] at h4
            simp only [extract_initial_state_run, hres, Except.map] at h4
            simp at h4

/-- C8: when any of the four identity/state extractors raises during
`SSEService.get_runner`, the exception propagates out before the runner
generator exists: the request ends in an error, and its trace contains
neither a `session_lock_handler.lock` call nor an unlock. -/
theorem sse_extractor_failure_before_lock (cc : ConfigContext) (input : Input)
    (envOf : InputInfo → RunnerEnv) (inout : Option (BaseEvent → BaseEvent))
    (exit : ExitMode) (e : Err)
    (h : (∃ f, cc.app_name = ConfigValue.extractor f ∧ f input = .error e) ∨
         (∃ f, cc.user_id = ConfigValue.extractor f ∧ f input = .error e) ∨
         (∃ f, cc.session_id = ConfigValue.extractor f ∧ f input = .error e) ∨
         (∃ f, cc.extract_initial_state = some f ∧ f input = .error e)) :
    ∃ e2 acts, handle_request cc input envOf inout exit = (acts, .error e2) ∧
      PipeAction.lockCall ∉ acts ∧ PipeAction.unlockCall ∉ acts := by
  obtain ⟨e2, herr⟩ := get_runner_input_info_fails cc input e h
  have hshape := get_runner_input_info_acts_shape cc input
  rcases hg : get_runner_input_info cc input with ⟨acts0, r⟩
  rw [hg] at herr hshape
  simp only at herr
  subst herr
  refine ⟨e2, acts0, ?_, ?_, ?_⟩
  · unfold handle_request
    rw [hg]
  · intro hmem
    obtain ⟨n, hn⟩ := hshape _ hmem
    exact PipeAction.noConfusion hn
  · intro hmem
    obtain ⟨n, hn⟩ := hshape _ hmem
    exact PipeAction.noConfusion hn

/-- Witness for C8 at a concrete configuration whose user-id extractor
raises. -/
theorem sse_extractor_failure_before_lock_witness :
    ∃ e2 acts,
      handle_request sampleFailingConfig "req"
          (fun _ => sampleCrashEnv) none ExitMode.toEnd = (acts, .error e2) ∧
      PipeAction.lockCall ∉ acts ∧ PipeAction.unlockCall ∉ acts :=
  sse_extractor_failure_before_lock sampleFailingConfig "req" (fun _ => sampleCrashEnv)
    none ExitMode.toEnd "identity backend down"
    (Or.inr (Or.inl ⟨fun _ => .error "identity backend down", rfl, rfl⟩))

lemma build_event_box_eq :
    ∀ (events : List AdkEvent) (st : TranslatorState) (box : List BoxItem),
      build_event_box st box events = box ++ live_stream_box st events := by
  intro events
  induction events with
  | nil =>
    intro st box
    simp [build_event_box, live_stream_box]
  | cons e rest ih =>
    intro st box
    simp only [build_event_box, live_stream_box]
    rw [ih]
    simp [List.append_assoc]

/-- C5: `HistoryHandler.get_message_snapshot` is deterministic — two
replays of the same ordered stored-event list produce identical
snapshots (each replay starts a fresh translator at
`initTranslatorState`), and the snapshot equals the resolved messages of
the same per-event translation emitted one event at a time, in stream
order, as live streaming would deliver it. -/
theorem history_snapshot_deterministic (session : Option (List AdkEvent)) :
    get_message_snapshot session = get_message_snapshot session ∧
    ∀ events, get_message_snapshot (some events) =
      some { messages := convertBoxList none (live_stream_box initTranslatorState events) } := by
  refine ⟨rfl, fun events => ?_⟩
  simp [get_message_snapshot, build_event_box_eq]

lemma mkDirectMessage_id (k i : String) (p : ContentPart) :
    (mkDirectMessage k i p).id = i := by
  unfold mkDirectMessage
  split <;> rfl

lemma check_direct_some (e : AdkEvent) (h : direct_convert_condition e) :
    check_raw_event_message_to_convert_agui e =
      some ((event_text_parts e).map (mkDirectMessage (selected_message_key e) e.id)) ∧
    event_text_parts e ≠ [] := by
  cases hc : e.content with
  | none =>
    unfold direct_convert_condition at h
    rw [hc] at h
    exact absurd h (by simp)
  | some c =>
    unfold direct_convert_condition at h
    rw [hc] at h
    obtain ⟨hparts, hkeys, hfilter⟩ := h
    have hempty : c.parts.isEmpty = false := by
      simpa using hparts
    have htp : event_text_parts e = c.parts.filter partTextTruthy := by
      simp [event_text_parts, hc]
    by_cases ha : e.author = "user" ∨ e.author = "developer"
    · have hane : ¬ e.author = "" := by
        rcases ha with h' | h' <;> rw [h'] <;> decide
      have hkey : selected_message_key e = e.author := by
        simp [selected_message_key, hc, ha, hane]
      refine ⟨?_, by rw [htp]; exact hfilter⟩
      rw [hkey, htp]
      simp [check_raw_event_message_to_convert_agui, hc, hempty, ha, hane]
    · have hr : c.role = "user" ∨ c.role = "developer" := by
        rcases hkeys with h' | h' | h' | h'
        · exact absurd (Or.inl h') ha
        · exact absurd (Or.inr h') ha
        · exact Or.inl h'
        · exact Or.inr h'
      have hrne : ¬ c.role = "" := by
        rcases hr with h' | h' <;> rw [h'] <;> decide
      have hkey : selected_message_key e = c.role := by
        simp [selected_message_key, hc, ha, hr, hrne]
      refine ⟨?_, by rw [htp]; exact hfilter⟩
      rw [hkey, htp]
      simp [check_raw_event_message_to_convert_agui, hc, hempty, ha, hr, hrne]

lemma check_not_direct (e : AdkEvent) (h : ¬ direct_convert_condition e) :
    check_raw_event_message_to_convert_agui e = none ∨
    check_raw_event_message_to_convert_agui e = some [] := by
  cases hc : e.content with
  | none =>
    left
    simp [check_raw_event_message_to_convert_agui, hc]
  | some c =>
    have h2 : ¬ (c.parts ≠ [] ∧
        (e.author = "user" ∨ e.author = "developer" ∨
          c.role = "user" ∨ c.role = "developer") ∧
        c.parts.filter partTextTruthy ≠ []) := by
      intro hco
      apply h
      unfold direct_convert_condition
      rw [hc]
      exact hco
    by_cases hparts : c.parts = []
    · left
      simp [check_raw_event_message_to_convert_agui, hc, hparts]
    · have hempty : c.parts.isEmpty = false := by
        simpa using hparts
      by_cases hk : (e.author = "user" ∨ e.author = "developer") ∨
          (c.role = "user" ∨ c.role = "developer")
      · have hfilter : c.parts.filter partTextTruthy = [] := by
          by_contra hf
          apply h2
          refine ⟨hparts, ?_, hf⟩
          rcases hk with h' | h'
          · rcases h' with h'' | h''
            · exact Or.inl h''
            · exact Or.inr (Or.inl h'')
          · rcases h' with h'' | h''
            · exact Or.inr (Or.inr (Or.inl h''))
            · exact Or.inr (Or.inr (Or.inr h''))
        right
        rcases hk with ha | hrole
        · have hane : ¬ e.author = "" := by
            rcases ha with h' | h' <;> rw [h'] <;> decide
          simp [check_raw_event_message_to_convert_agui, hc, hempty, ha, hane, hfilter]
        · by_cases ha : e.author = "user" ∨ e.author = "developer"
          · have hane : ¬ e.author = "" := by
              rcases ha with h' | h' <;> rw [h'] <;> decide
            simp [check_raw_event_message_to_convert_agui, hc, hempty, ha, hane, hfilter]
          · have hrne : ¬ c.role = "" := by
              rcases hrole with h' | h' <;> rw [h'] <;> decide
            simp [check_raw_event_message_to_convert_agui, hc, hempty, ha, hrole, hrne,
              hfilter]
      · left
        push_neg at hk
        obtain ⟨hka, hkr⟩ := hk
        simp [check_raw_event_message_to_convert_agui, hc, hempty, hka, hkr]

/-- C6: in `get_message_snapshot`, an event with content parts whose
author or content role is `"user"`/`"developer"` and which has at least
one text-bearing part is converted directly — each text-bearing part
becomes one `UserMessage` (key `"user"`) or `SystemMessage` with role
`"system"` (key `"developer"`), the author winning over the role — and
bypasses the translation pipeline; every other event (including one
with no text-bearing parts) goes through the translation pipeline. -/
theorem history_direct_conversion_dichotomy (st : TranslatorState) (e : AdkEvent) :
    (direct_convert_condition e →
      process_snapshot_event st e =
        (st, (event_text_parts e).map
          (fun p => BoxItem.message (mkDirectMessage (selected_message_key e) e.id p)))) ∧
    (¬ direct_convert_condition e →
      process_snapshot_event st e =
        ((translateStep st e).1, (translateStep st e).2.map BoxItem.event)) := by
  constructor
  · intro h
    obtain ⟨hcheck, hne⟩ := check_direct_some e h
    cases hl : (event_text_parts e).map (mkDirectMessage (selected_message_key e) e.id) with
    | nil => exact absurd (List.map_eq_nil_iff.mp hl) hne
    | cons m ms =>
      rw [hl] at hcheck
      have : process_snapshot_event st e = (st, (m :: ms).map BoxItem.message) := by
        simp [process_snapshot_event, hcheck]
      rw [this, ← hl, List.map_map]
      rfl
  · intro h
    rcases check_not_direct e h with hch | hch <;>
      simp [process_snapshot_event, hch]

/-- Witness for C6 at a concrete user-authored event with text. -/
theorem history_direct_conversion_dichotomy_witness :
    process_snapshot_event initTranslatorState sampleUserEvent =
      (initTranslatorState, (event_text_parts sampleUserEvent).map
        (fun p => BoxItem.message
          (mkDirectMessage (selected_message_key sampleUserEvent) sampleUserEvent.id p))) :=
  (history_direct_conversion_dichotomy initTranslatorState sampleUserEvent).1
    (by constructor <;> simp [partTextTruthy])

/-- C9: a stored user- or developer-authored event with `n > 1`
text-bearing parts converts to `n` messages that all carry the single
event id, so message ids in the snapshot are not unique per message. -/
theorem history_duplicate_message_ids (e : AdkEvent) (c : Content) (n : ℕ)
    (hc : e.content = some c)
    (ha : e.author = "user" ∨ e.author = "developer")
    (hn : (c.parts.filter partTextTruthy).length = n)
    (h1 : 1 < n) :
    ∃ msgs, check_raw_event_message_to_convert_agui e = some msgs ∧
      msgs.length = n ∧
      msgs.map (fun m => m.id) = List.replicate n e.id ∧
      ¬ (msgs.map (fun m => m.id)).Nodup := by
  have hfilter : c.parts.filter partTextTruthy ≠ [] := by
    intro h0
    rw [h0] at hn
    simp at hn
    omega
  have hparts : c.parts ≠ [] := by
    intro h0
    apply hfilter
    rw [h0]
    rfl
  have hcond : direct_convert_condition e := by
    unfold direct_convert_condition
    rw [hc]
    refine ⟨hparts, ?_, hfilter⟩
    rcases ha with h' | h'
    · exact Or.inl h'
    · exact Or.inr (Or.inl h')
  obtain ⟨hcheck, -⟩ := check_direct_some e hcond
  have htp : event_text_parts e = c.parts.filter partTextTruthy := by
    simp [event_text_parts, hc]
  have hrep : ((event_text_parts e).map
      (mkDirectMessage (selected_message_key e) e.id)).map (fun m => m.id) =
      List.replicate n e.id := by
    rw [List.map_map, List.eq_replicate_iff]
    refine ⟨by rw [List.length_map, htp, hn], ?_⟩
    intro b hb
    simp only [List.mem_map, Function.comp] at hb
    obtain ⟨p, -, hp⟩ := hb
    rw [← hp, mkDirectMessage_id]
  refine ⟨(event_text_parts e).map (mkDirectMessage (selected_message_key e) e.id),
    hcheck, by rw [List.length_map, htp, hn], hrep, ?_⟩
  rw [hrep, List.nodup_replicate]
  omega

/-- Witness for C9 at a concrete two-part user event. -/
theorem history_duplicate_message_ids_witness :
    ∃ msgs, check_raw_event_message_to_convert_agui sampleUserEvent = some msgs ∧
      msgs.length = 2 ∧
      msgs.map (fun m => m.id) = List.replicate 2 sampleUserEvent.id ∧
      ¬ (msgs.map (fun m => m.id)).Nodup :=
  history_duplicate_message_ids sampleUserEvent
    { role := "user", parts := [{ text := some "first" }, { text := some "second" }] } 2
    rfl (Or.inl rfl) (by simp [partTextTruthy]) (by omega)
